import Mathlib

/-!
Verification development for the Spotify-Artist-Research social-links
repository.  Python strings are modelled as `List Char`; `NaN`/missing
spreadsheet cells and Python `None` are modelled as `Option` values.
Each definition is a shallow embedding of the function of the same name
in the Python sources (file named in the doc comment).
-/

namespace PyStr

/-- Python's `\s` character class restricted to the characters that can
appear in the data: space, tab, newline, carriage return, vertical tab,
form feed. -/
def isPySpace (c : Char) : Bool :=
  c = ' ' || c = '\t' || c = '\n' || c = '\r' || c = '\x0b' || c = '\x0c'

/-- The character class `[a-z0-9_]` kept by the handle-cleaning regexes. -/
def isHandleChar (c : Char) : Bool :=
  ('a' ≤ c && c ≤ 'z') || ('0' ≤ c && c ≤ '9') || c = '_'

/-- Python `str.rstrip("/")`: drop every trailing `'/'`. -/
def rstripSlash (l : List Char) : List Char :=
  (l.reverse.dropWhile (· = '/')).reverse

/-- Python `str.split(sep)` for a one-character separator.
`splitOn sep "" = [""]`, `splitOn '/' "a/" = ["a", ""]`, etc. -/
def splitOn (sep : Char) : List Char → List (List Char)
  | [] => [[]]
  | c :: cs =>
    if c = sep then [] :: splitOn sep cs
    else
      match splitOn sep cs with
      | [] => [[c]]
      | p :: ps => (c :: p) :: ps

theorem splitOn_ne_nil (sep : Char) (l : List Char) : splitOn sep l ≠ [] := by
  cases l with
  | nil => simp [splitOn]
  | cons c cs =>
    simp only [splitOn]
    split
    · simp
    · split
      · simp
      · simp

theorem splitOn_of_not_mem (sep : Char) (l : List Char)
    (h : ∀ c ∈ l, c ≠ sep) : splitOn sep l = [l] := by
  induction l with
  | nil => rfl
  | cons c cs ih =>
    have hc : c ≠ sep := h c (List.mem_cons_self c cs)
    have ih' := ih (fun x hx => h x (List.mem_cons_of_mem c hx))
    simp [splitOn, hc, ih']

theorem splitOn_length (sep : Char) (l : List Char) :
    (splitOn sep l).length = l.count sep + 1 := by
  induction l with
  | nil => simp [splitOn]
  | cons c cs ih =>
    by_cases hc : c = sep
    · have h1 : splitOn sep (c :: cs) = [] :: splitOn sep cs := by
        simp [splitOn, hc]
      rw [h1, List.length_cons, ih, List.count_cons]
      simp [hc]
    · have hne := splitOn_ne_nil sep cs
      cases hsp : splitOn sep cs with
      | nil => exact absurd hsp hne
      | cons p ps =>
        have h1 : splitOn sep (c :: cs) = (c :: p) :: ps := by
          simp [splitOn, hc, hsp]
        have h2 : (p :: ps).length = cs.count sep + 1 := by rw [← hsp]; exact ih
        rw [h1, List.length_cons, List.count_cons]
        simp only [List.length_cons] at h2
        simp [hc]
        omega

/-- The last chunk of a split around an explicit separator occurrence is
the separator-free tail. -/
theorem splitOn_append_getLast (sep : Char) (ys zs : List Char)
    (hz : ∀ c ∈ zs, c ≠ sep) :
    (splitOn sep (ys ++ sep :: zs)).getLastD [] = zs := by
  induction ys with
  | nil =>
    simp [splitOn, splitOn_of_not_mem sep zs hz]
  | cons y ys ih =>
    have hne := splitOn_ne_nil sep (ys ++ sep :: zs)
    cases hsp : splitOn sep (ys ++ sep :: zs) with
    | nil => exact absurd hsp hne
    | cons p ps =>
      rw [hsp] at ih
      by_cases hy : y = sep
      · have h1 : splitOn sep (y :: ys ++ sep :: zs)
            = [] :: (p :: ps) := by
          simp [splitOn, hy, hsp]
        rw [h1]
        simpa using ih
      · have h1 : splitOn sep (y :: ys ++ sep :: zs)
            = (y :: p) :: ps := by
          simp [splitOn, hy, hsp]
        rw [h1]
        have hlen : (splitOn sep (ys ++ sep :: zs)).length
            = (ys ++ sep :: zs).count sep + 1 := splitOn_length sep _
        rw [hsp] at hlen
        have hcnt : 1 ≤ (ys ++ sep :: zs).count sep := by
          rw [List.count_append, List.count_cons]
          simp only [beq_self_eq_true, if_true]
          omega
        have hps : ps ≠ [] := by
          intro hnil
          rw [hnil] at hlen
          simp only [List.length_cons, List.length_nil] at hlen
          omega
        cases ps with
        | nil => exact absurd rfl hps
        | cons q qs =>
          simpa using ih

/-- `rstripSlash` is the identity on a list whose last element is not `'/'`. -/
theorem rstripSlash_eq_self (l : List Char) (c : Char)
    (hlast : l.getLast? = some c) (hc : c ≠ '/') :
    rstripSlash l = l := by
  unfold rstripSlash
  have : l.reverse.head? = some c := by
    simpa [List.head?_reverse] using hlast
  cases hrev : l.reverse with
  | nil => simp [hrev] at this
  | cons x xs =>
    rw [hrev] at this
    have hx : x = c := by simpa using this
    subst hx
    rw [List.dropWhile_cons_of_neg (by simpa using hc)]
    have : l.reverse.reverse = l := List.reverse_reverse l
    rw [hrev] at this
    exact this

end PyStr

namespace EnrichDjProducersSocial

open PyStr

/-- `clean_artist_name_for_handle` from
`enrich_dj_producers_social.py`: lowercase, strip the regex
`^dj\s+` (the letters `dj` followed by a maximal nonempty run of
whitespace), then keep only `[a-z0-9_]`.  This variant returns the
cleaned string even when it is empty. -/
def clean_artist_name_for_handle (artist_name : List Char) : List Char :=
  let lowered := artist_name.map Char.toLower
  let stripped :=
    match lowered with
    | 'd' :: 'j' :: rest =>
      match rest with
      | c :: _ => if isPySpace c then rest.dropWhile isPySpace else lowered
      | [] => lowered
    | _ => lowered
  stripped.filter isHandleChar

end EnrichDjProducersSocial

namespace CreateRappersFinal

open PyStr

/-- The prefix-word step of the regex `^(lil|young|big|the)\s+`: if `l`
starts with `w` followed by at least one whitespace character, drop the
word and the maximal whitespace run, else report no match. -/
def stripWord (w : List Char) (l : List Char) : Option (List Char) :=
  if w.isPrefixOf l then
    match l.drop w.length with
    | c :: rest =>
      if isPySpace c then some ((c :: rest).dropWhile isPySpace) else none
    | [] => none
  else none

/-- `clean_artist_name_for_handle` from `create_rappers_final.py`:
lowercase, strip the regex `^(lil|young|big|the)\s+`, keep only
`[a-z0-9_]`, and return `None` when nothing remains. -/
def clean_artist_name_for_handle (artist_name : List Char) :
    Option (List Char) :=
  let lowered := artist_name.map Char.toLower
  let stripped :=
    (((stripWord ['l', 'i', 'l'] lowered).orElse
      (fun _ => stripWord ['y', 'o', 'u', 'n', 'g'] lowered)).orElse
      (fun _ => stripWord ['b', 'i', 'g'] lowered)).orElse
      (fun _ => stripWord ['t', 'h', 'e'] lowered)
  let cleaned := (stripped.getD lowered).filter isHandleChar
  if cleaned = [] then none else some cleaned

/-- `construct_instagram_url` from `create_rappers_final.py`:
returns `(url, handle)` or `(None, None)`. -/
def construct_instagram_url (artist_name : List Char) :
    Option (List Char) × Option (List Char) :=
  match clean_artist_name_for_handle artist_name with
  | some h => (some ("https://www.instagram.com/".toList ++ h), some h)
  | none => (none, none)

/-- `construct_tiktok_url` from `create_rappers_final.py` (the branch
with no Instagram handle supplied). -/
def construct_tiktok_url (artist_name : List Char) :
    Option (List Char) × Option (List Char) :=
  match clean_artist_name_for_handle artist_name with
  | some h => (some ("https://www.tiktok.com/@".toList ++ h), some h)
  | none => (none, none)

/-- `construct_youtube_url` from `create_rappers_final.py` (no Instagram
handle supplied); returns only the URL. -/
def construct_youtube_url (artist_name : List Char) : Option (List Char) :=
  match clean_artist_name_for_handle artist_name with
  | some h => some ("https://www.youtube.com/@".toList ++ h)
  | none => none

/-- `construct_twitter_url` from `create_rappers_final.py` (no Instagram
handle supplied). -/
def construct_twitter_url (artist_name : List Char) :
    Option (List Char) × Option (List Char) :=
  match clean_artist_name_for_handle artist_name with
  | some h => (some ("https://twitter.com/".toList ++ h), some h)
  | none => (none, none)

/-- `construct_soundcloud_url` from `create_rappers_final.py`. -/
def construct_soundcloud_url (artist_name : List Char) :
    Option (List Char) × Option (List Char) :=
  match clean_artist_name_for_handle artist_name with
  | some h => (some ("https://soundcloud.com/".toList ++ h), some h)
  | none => (none, none)

/-- `construct_facebook_url` from `create_rappers_final.py`. -/
def construct_facebook_url (artist_name : List Char) : Option (List Char) :=
  match clean_artist_name_for_handle artist_name with
  | some h => some ("https://www.facebook.com/".toList ++ h)
  | none => none

end CreateRappersFinal

namespace EnrichMusicbrainz

open PyStr

/-- `handle[1:] if handle.startswith("@") else handle`. -/
def stripLeadingAt : List Char → List Char
  | '@' :: rest => rest
  | h => h

/-- `extract_handle` from `enrich_musicbrainz.py`:
strip trailing slashes, drop everything from the first `'?'`, take the
final `'/'`-separated segment, remove one leading `'@'`.  The `platform`
argument of the Python function is unused there and omitted here. -/
def extract_handle (url : List Char) : Option (List Char) :=
  if url = [] then none
  else
    some (stripLeadingAt
      ((splitOn '/' ((splitOn '?' (rstripSlash url)).headD [])).getLastD []))

end EnrichMusicbrainz

namespace FillAllSocialLinks

open PyStr

/-- Leftmost `re.search` for patterns of the shape `pat(CLS+)`: scan for
the first position where `pat` occurs followed by a nonempty maximal run
of characters satisfying `cls`, and return that run (the capture group).
Models the three `re.search` calls in `extract_handle_from_url` of
`fill_all_social_links.py`. -/
def reSearchAfter (pat : List Char) (cls : Char → Bool) :
    List Char → Option (List Char)
  | [] => none
  | c :: cs =>
    if pat.isPrefixOf (c :: cs) then
      let g := ((c :: cs).drop pat.length).takeWhile cls
      if g = [] then reSearchAfter pat cls cs else some g
    else reSearchAfter pat cls cs

/-- The platforms `extract_handle_from_url` distinguishes. -/
inductive Platform
  | instagram
  | twitter
  | tiktok
  | other
deriving DecidableEq

/-- The character class `[a-zA-Z0-9_.]` of the TikTok pattern. -/
def isTiktokHandleChar (c : Char) : Bool :=
  ('a' ≤ c && c ≤ 'z') || ('A' ≤ c && c ≤ 'Z') ||
    ('0' ≤ c && c ≤ '9') || c = '_' || c = '.'

/-- `extract_handle_from_url` from `fill_all_social_links.py`:
`instagram\.com/([^/]+)`, `twitter\.com/([^/]+)`, `@([a-zA-Z0-9_.]+)`,
and `None` for other platforms or empty input. -/
def extract_handle_from_url (url : List Char) (platform : Platform) :
    Option (List Char) :=
  if url = [] then none
  else
    match platform with
    | Platform.instagram =>
      reSearchAfter "instagram.com/".toList (fun c => !(c = '/')) url
    | Platform.twitter =>
      reSearchAfter "twitter.com/".toList (fun c => !(c = '/')) url
    | Platform.tiktok =>
      reSearchAfter ['@'] isTiktokHandleChar url
    | Platform.other => none

end FillAllSocialLinks

namespace RoundTrip

open PyStr CreateRappersFinal EnrichMusicbrainz FillAllSocialLinks

theorem handleChar_ne_slash (c : Char) (hc : isHandleChar c = true) :
    c ≠ '/' := by
  intro h
  subst h
  simp [isHandleChar] at hc

theorem handleChar_ne_query (c : Char) (hc : isHandleChar c = true) :
    c ≠ '?' := by
  intro h
  subst h
  simp [isHandleChar] at hc

theorem handleChar_ne_at (c : Char) (hc : isHandleChar c = true) :
    c ≠ '@' := by
  intro h
  subst h
  simp [isHandleChar] at hc

theorem handleChar_tiktok (c : Char) (hc : isHandleChar c = true) :
    isTiktokHandleChar c = true := by
  simp only [isHandleChar, Bool.or_eq_true, Bool.and_eq_true,
    decide_eq_true_eq] at hc
  simp only [isTiktokHandleChar, Bool.or_eq_true, Bool.and_eq_true,
    decide_eq_true_eq]
  tauto

/-- The cleaned handle returned by `clean_artist_name_for_handle`
(`create_rappers_final.py`) is nonempty and drawn from `[a-z0-9_]`. -/
theorem clean_spec (name h : List Char)
    (hcl : clean_artist_name_for_handle name = some h) :
    h ≠ [] ∧ ∀ c ∈ h, isHandleChar c = true := by
  simp only [clean_artist_name_for_handle] at hcl
  split at hcl
  · exact absurd hcl (by simp)
  · rename_i hne
    obtain rfl : _ = h := Option.some.inj hcl
    refine ⟨hne, ?_⟩
    intro c hc
    exact (List.mem_filter.mp hc).2

/-- `extract_handle` on a URL whose path ends in a nonempty, slash-free,
query-free final segment returns that segment with a leading `'@'`
removed. -/
theorem extract_handle_append (pre seg : List Char)
    (hpre : ∀ c ∈ pre, c ≠ '?')
    (hseg : seg ≠ [])
    (hsl : ∀ c ∈ seg, c ≠ '/')
    (hsq : ∀ c ∈ seg, c ≠ '?') :
    extract_handle (pre ++ '/' :: seg) = some (stripLeadingAt seg) := by
  have hurl : pre ++ '/' :: seg ≠ [] := by simp
  have hlast2 : ('/' :: seg).getLast? = seg.getLast? := by
    cases seg with
    | nil => exact absurd rfl hseg
    | cons s ss => simp [List.getLast?_cons_cons]
  cases hgl : seg.getLast? with
  | none =>
    exact absurd (List.getLast?_eq_none_iff.mp hgl) hseg
  | some c =>
    have hcmem : c ∈ seg := List.mem_of_mem_getLast? hgl
    have hlast : (pre ++ '/' :: seg).getLast? = some c := by
      rw [List.getLast?_append_of_ne_nil _ (by simp), hlast2, hgl]
    have hstrip : rstripSlash (pre ++ '/' :: seg) = pre ++ '/' :: seg :=
      rstripSlash_eq_self _ c hlast (hsl c hcmem)
    have hnq : ∀ x ∈ pre ++ '/' :: seg, x ≠ '?' := by
      intro x hx
      rcases List.mem_append.mp hx with hx | hx
      · exact hpre x hx
      · rcases List.mem_cons.mp hx with rfl | hx
        · decide
        · exact hsq x hx
    unfold extract_handle
    rw [if_neg hurl, hstrip, splitOn_of_not_mem '?' _ hnq]
    simp only [List.headD_cons]
    rw [splitOn_append_getLast '/' pre seg hsl]

/-- `stripLeadingAt` is the identity on a handle made of `[a-z0-9_]`. -/
theorem stripLeadingAt_of_handle (h : List Char)
    (hc : ∀ c ∈ h, isHandleChar c = true) : stripLeadingAt h = h := by
  cases h with
  | nil => rfl
  | cons a as =>
    have ha : a ≠ '@' :=
      handleChar_ne_at a (hc a (List.mem_cons_self a as))
    unfold stripLeadingAt
    split
    · rename_i rest heq
      injection heq with h1 _
      exact absurd h1 ha
    · rfl

theorem takeWhile_handle_nonslash (h : List Char)
    (hc : ∀ c ∈ h, isHandleChar c = true) :
    h.takeWhile (fun c => !(c = '/')) = h := by
  refine List.takeWhile_eq_self_iff.mpr ?_
  intro c hcm
  simpa using handleChar_ne_slash c (hc c hcm)

theorem takeWhile_handle_tiktok (h : List Char)
    (hc : ∀ c ∈ h, isHandleChar c = true) :
    h.takeWhile isTiktokHandleChar = h := by
  refine List.takeWhile_eq_self_iff.mpr ?_
  intro c hcm
  exact handleChar_tiktok c (hc c hcm)

theorem efu_instagram (h : List Char) (hne : h ≠ [])
    (hc : ∀ c ∈ h, isHandleChar c = true) :
    extract_handle_from_url ("https://www.instagram.com/".toList ++ h)
      Platform.instagram = some h := by
  have htw := takeWhile_handle_nonslash h hc
  have hurl : "https://www.instagram.com/".toList ++ h ≠ [] := by
    simp [String.toList]
  unfold extract_handle_from_url
  rw [if_neg hurl]
  simp only [String.toList]
  simp [reSearchAfter, List.isPrefixOf, htw, hne]

theorem efu_twitter (h : List Char) (hne : h ≠ [])
    (hc : ∀ c ∈ h, isHandleChar c = true) :
    extract_handle_from_url ("https://twitter.com/".toList ++ h)
      Platform.twitter = some h := by
  have htw := takeWhile_handle_nonslash h hc
  have hurl : "https://twitter.com/".toList ++ h ≠ [] := by
    simp [String.toList]
  unfold extract_handle_from_url
  rw [if_neg hurl]
  simp only [String.toList]
  simp [reSearchAfter, List.isPrefixOf, htw, hne]

theorem efu_tiktok (h : List Char) (hne : h ≠ [])
    (hc : ∀ c ∈ h, isHandleChar c = true) :
    extract_handle_from_url ("https://www.tiktok.com/@".toList ++ h)
      Platform.tiktok = some h := by
  have htw := takeWhile_handle_tiktok h hc
  have hurl : "https://www.tiktok.com/@".toList ++ h ≠ [] := by
    simp [String.toList]
  unfold extract_handle_from_url
  rw [if_neg hurl]
  simp only [String.toList]
  simp [reSearchAfter, List.isPrefixOf, htw, hne]

/-- `extract_handle` applied to `prefixStr ++ h` where `prefixStr` ends
in `'/'` (or `'/@'`) and `h` is a clean handle gives back `h`. -/
theorem extract_handle_of_clean (pre h : List Char)
    (hpre : ∀ c ∈ pre, c ≠ '?')
    (hne : h ≠ [])
    (hc : ∀ c ∈ h, isHandleChar c = true) :
    extract_handle (pre ++ '/' :: h) = some h := by
  rw [extract_handle_append pre h hpre hne
    (fun c hcm => handleChar_ne_slash c (hc c hcm))
    (fun c hcm => handleChar_ne_query c (hc c hcm))]
  rw [stripLeadingAt_of_handle h hc]

/-- Same, with an `'@'` separating the slash from the handle, as in the
TikTok and YouTube URL shapes. -/
theorem extract_handle_of_clean_at (pre h : List Char)
    (hpre : ∀ c ∈ pre, c ≠ '?')
    (_hne : h ≠ [])
    (hc : ∀ c ∈ h, isHandleChar c = true) :
    extract_handle (pre ++ '/' :: '@' :: h) = some h := by
  have hsl : ∀ c ∈ '@' :: h, c ≠ '/' := by
    intro c hcm
    rcases List.mem_cons.mp hcm with rfl | hcm
    · decide
    · exact handleChar_ne_slash c (hc c hcm)
  have hsq : ∀ c ∈ '@' :: h, c ≠ '?' := by
    intro c hcm
    rcases List.mem_cons.mp hcm with rfl | hcm
    · decide
    · exact handleChar_ne_query c (hc c hcm)
  rw [extract_handle_append pre ('@' :: h) hpre (by simp) hsl hsq]
  rfl

end RoundTrip

open PyStr CreateRappersFinal EnrichMusicbrainz FillAllSocialLinks RoundTrip in
/-- C6: for every platform templater of `create_rappers_final.py` and
every handle produced by `clean_artist_name_for_handle`, extracting the
handle from the constructed URL (with `extract_handle` of
`enrich_musicbrainz.py`, and with `extract_handle_from_url` of
`fill_all_social_links.py` on the platforms it supports) returns the
original handle. -/
theorem C6_extraction_roundtrip (name url h : List Char) :
    (construct_instagram_url name = (some url, some h) →
      extract_handle url = some h ∧
      extract_handle_from_url url Platform.instagram = some h)
  ∧ (construct_tiktok_url name = (some url, some h) →
      extract_handle url = some h ∧
      extract_handle_from_url url Platform.tiktok = some h)
  ∧ (construct_twitter_url name = (some url, some h) →
      extract_handle url = some h ∧
      extract_handle_from_url url Platform.twitter = some h)
  ∧ (construct_soundcloud_url name = (some url, some h) →
      extract_handle url = some h)
  ∧ (clean_artist_name_for_handle name = some h →
      construct_youtube_url name = some url →
      extract_handle url = some h)
  ∧ (clean_artist_name_for_handle name = some h →
      construct_facebook_url name = some url →
      extract_handle url = some h) := by
  refine ⟨?_, ?_, ?_, ?_, ?_, ?_⟩
  · intro hcon
    unfold construct_instagram_url at hcon
    cases hcl : clean_artist_name_for_handle name with
    | none => rw [hcl] at hcon; exact absurd hcon (by simp)
    | some h' =>
      rw [hcl] at hcon
      simp only [Prod.mk.injEq, Option.some.injEq] at hcon
      obtain ⟨rfl, rfl⟩ := hcon
      obtain ⟨hne, hc⟩ := clean_spec name h' hcl
      have hdec : "https://www.instagram.com/".toList ++ h'
          = "https://www.instagram.com".toList ++ '/' :: h' := by
        rw [show ("https://www.instagram.com/".toList)
          = "https://www.instagram.com".toList ++ ['/'] by decide]
        simp
      refine ⟨?_, efu_instagram h' hne hc⟩
      rw [hdec]
      exact extract_handle_of_clean _ h' (by decide) hne hc
  · intro hcon
    unfold construct_tiktok_url at hcon
    cases hcl : clean_artist_name_for_handle name with
    | none => rw [hcl] at hcon; exact absurd hcon (by simp)
    | some h' =>
      rw [hcl] at hcon
      simp only [Prod.mk.injEq, Option.some.injEq] at hcon
      obtain ⟨rfl, rfl⟩ := hcon
      obtain ⟨hne, hc⟩ := clean_spec name h' hcl
      have hdec : "https://www.tiktok.com/@".toList ++ h'
          = "https://www.tiktok.com".toList ++ '/' :: '@' :: h' := by
        rw [show ("https://www.tiktok.com/@".toList)
          = "https://www.tiktok.com".toList ++ ['/', '@'] by decide]
        simp
      refine ⟨?_, efu_tiktok h' hne hc⟩
      rw [hdec]
      exact extract_handle_of_clean_at _ h' (by decide) hne hc
  · intro hcon
    unfold construct_twitter_url at hcon
    cases hcl : clean_artist_name_for_handle name with
    | none => rw [hcl] at hcon; exact absurd hcon (by simp)
    | some h' =>
      rw [hcl] at hcon
      simp only [Prod.mk.injEq, Option.some.injEq] at hcon
      obtain ⟨rfl, rfl⟩ := hcon
      obtain ⟨hne, hc⟩ := clean_spec name h' hcl
      have hdec : "https://twitter.com/".toList ++ h'
          = "https://twitter.com".toList ++ '/' :: h' := by
        rw [show ("https://twitter.com/".toList)
          = "https://twitter.com".toList ++ ['/'] by decide]
        simp
      refine ⟨?_, efu_twitter h' hne hc⟩
      rw [hdec]
      exact extract_handle_of_clean _ h' (by decide) hne hc
  · intro hcon
    unfold construct_soundcloud_url at hcon
    cases hcl : clean_artist_name_for_handle name with
    | none => rw [hcl] at hcon; exact absurd hcon (by simp)
    | some h' =>
      rw [hcl] at hcon
      simp only [Prod.mk.injEq, Option.some.injEq] at hcon
      obtain ⟨rfl, rfl⟩ := hcon
      obtain ⟨hne, hc⟩ := clean_spec name h' hcl
      have hdec : "https://soundcloud.com/".toList ++ h'
          = "https://soundcloud.com".toList ++ '/' :: h' := by
        rw [show ("https://soundcloud.com/".toList)
          = "https://soundcloud.com".toList ++ ['/'] by decide]
        simp
      rw [hdec]
      exact extract_handle_of_clean _ h' (by decide) hne hc
  · intro hcl hcon
    unfold construct_youtube_url at hcon
    rw [hcl] at hcon
    simp only [Option.some.injEq] at hcon
    obtain rfl := hcon.symm
    obtain ⟨hne, hc⟩ := clean_spec name h hcl
    have hdec : "https://www.youtube.com/@".toList ++ h
        = "https://www.youtube.com".toList ++ '/' :: '@' :: h := by
      rw [show ("https://www.youtube.com/@".toList)
        = "https://www.youtube.com".toList ++ ['/', '@'] by decide]
      simp
    rw [hdec]
    exact extract_handle_of_clean_at _ h (by decide) hne hc
  · intro hcl hcon
    unfold construct_facebook_url at hcon
    rw [hcl] at hcon
    simp only [Option.some.injEq] at hcon
    obtain rfl := hcon.symm
    obtain ⟨hne, hc⟩ := clean_spec name h hcl
    have hdec : "https://www.facebook.com/".toList ++ h
        = "https://www.facebook.com".toList ++ '/' :: h := by
      rw [show ("https://www.facebook.com/".toList)
        = "https://www.facebook.com".toList ++ ['/'] by decide]
      simp
    rw [hdec]
    exact extract_handle_of_clean _ h (by decide) hne hc

/-- Witness for C6 at the concrete artist name `"Drake"`. -/
theorem C6_extraction_roundtrip_witness :
    EnrichMusicbrainz.extract_handle
      "https://www.instagram.com/drake".toList = some "drake".toList
  ∧ FillAllSocialLinks.extract_handle_from_url
      "https://www.tiktok.com/@drake".toList
      FillAllSocialLinks.Platform.tiktok = some "drake".toList := by
  refine ⟨?_, ?_⟩
  · exact ((C6_extraction_roundtrip "Drake".toList
      "https://www.instagram.com/drake".toList "drake".toList).1
      (by decide)).1
  · exact ((C6_extraction_roundtrip "Drake".toList
      "https://www.tiktok.com/@drake".toList "drake".toList).2.1
      (by decide)).2

open PyStr EnrichMusicbrainz RoundTrip in
/-- C7 (amended): `extract_handle` strips trailing slashes, then drops
everything from the first `'?'`, takes the final path segment and strips
a leading `'@'`; it returns `none` exactly when the input string is
empty — for every nonempty input, malformed or not, it returns a `some`
handle, which can be the empty string. -/
theorem C7_extract_handle_contract :
    (∀ url : List Char, extract_handle url = none ↔ url = [])
  ∧ (∀ pre seg : List Char, (∀ c ∈ pre, c ≠ '?') → seg ≠ [] →
      (∀ c ∈ seg, c ≠ '/') → (∀ c ∈ seg, c ≠ '?') →
      extract_handle (pre ++ '/' :: seg) = some (stripLeadingAt seg)) := by
  refine ⟨?_, ?_⟩
  · intro url
    unfold extract_handle
    by_cases hu : url = []
    · simp [hu]
    · simp [hu]
  · intro pre seg hpre hseg hsl hsq
    exact extract_handle_append pre seg hpre hseg hsl hsq

/-- Witness for C7 at a concrete well-formed URL. -/
theorem C7_extract_handle_contract_witness :
    EnrichMusicbrainz.extract_handle
      ("https://soundcloud.com".toList ++ '/' :: "drake".toList)
      = some (EnrichMusicbrainz.stripLeadingAt "drake".toList) :=
  C7_extract_handle_contract.2 "https://soundcloud.com".toList
    "drake".toList (by decide) (by decide) (by decide) (by decide)

/-- C7 counterexample: on the well-formed URL
`https://instagram.com/drake/?hl=en` (trailing slash before the query
string) `extract_handle` returns the empty-string handle — not the final
path segment `drake` and not `none` — refuting "it never returns an
empty-string handle". -/
theorem C7_empty_handle_counterexample :
    EnrichMusicbrainz.extract_handle
      "https://instagram.com/drake/?hl=en".toList = some []
  ∧ (some ([] : List Char) ≠ none)
  ∧ ([] : List Char) ≠ "drake".toList := by
  refine ⟨by decide, by simp, by decide⟩

open PyStr in
/-- C9: the DJ-prefix normalization of `enrich_dj_producers_social.py`
maps `"DJ Khaled"` to the handle `"khaled"` (not `"djkhaled"`), and
every handle it produces contains only characters in `[a-z0-9_]`. -/
theorem C9_dj_prefix_strip :
    EnrichDjProducersSocial.clean_artist_name_for_handle
      "DJ Khaled".toList = "khaled".toList
  ∧ "khaled".toList ≠ "djkhaled".toList
  ∧ ∀ name : List Char,
      (EnrichDjProducersSocial.clean_artist_name_for_handle name).all
        isHandleChar = true := by
  refine ⟨by decide, by decide, ?_⟩
  intro name
  apply List.all_eq_true.mpr
  intro c hc
  simp only [EnrichDjProducersSocial.clean_artist_name_for_handle] at hc
  exact (List.mem_filter.mp hc).2

namespace Spotify

/-- A Spotify artist object as consumed by the scripts: `item.get("id")`
can be absent (`none`), `item.get("name", "")` defaults to `""`. -/
structure Artist where
  id : Option (List Char)
  name : List Char
deriving DecidableEq

/-- The candidate-selection loop shared by `SpotifyClient.search_artist`
(`enrich_remaining.py`, `enrich_dj_parallel.py`) and
`SpotifyClient.search` (`dj_chunk_runner.py`): `None` on an empty item
list, else the first exact case-insensitive name match, else the first
item. -/
def selectArtist (items : List Artist) (name : List Char) : Option Artist :=
  match items with
  | [] => none
  | first :: _ =>
    match items.find?
      (fun i => i.name.map Char.toLower = name.map Char.toLower) with
    | some it => some it
    | none => some first

/-- One scripted HTTP response to the Spotify search request: a 429 with
an optional `Retry-After` header, a 2xx with a parsed item list, or any
other error status. -/
inductive Resp
  | rate (retryAfter : Option Nat)
  | ok (items : List Artist)
  | err
deriving DecidableEq

/-- The sleep a 429 response causes in `dj_chunk_runner.SpotifyClient.search`:
`int(r.headers.get("Retry-After", 3))`. -/
def retryDelay : Resp → Nat
  | Resp.rate ra => ra.getD 3
  | _ => 0

/-- Result of a search call: the returned artist (if any), the sequence
of rate-limit sleeps performed, and how many HTTP requests were made. -/
structure SearchOutcome where
  result : Option Artist
  sleeps : List Nat
  attempts : Nat
deriving DecidableEq

/-- `SpotifyClient.search` from `dj_chunk_runner.py`, driven by a script
of responses (one per HTTP request, in order).  A 429 sleeps
`Retry-After` (default 3) and recursively retries; a non-429 error hits
`raise_for_status` inside the bare `except` and yields `None`; an
exhausted script is a failed request, also swallowed by the bare
`except` as `None`. -/
def search (name : List Char) : List Resp → SearchOutcome
  | [] => ⟨none, [], 0⟩
  | Resp.rate ra :: rest =>
    let o := search name rest
    ⟨o.result, (ra.getD 3) :: o.sleeps, o.attempts + 1⟩
  | Resp.ok items :: _ => ⟨selectArtist items name, [], 1⟩
  | Resp.err :: _ => ⟨none, [], 1⟩

end Spotify

namespace SocialLinksPipeline

/-- A MusicBrainz artist from the search response of
`social_links_pipeline.get_all_social_links`:
`id`, `score` (`.get("score", 0)`), `country` (`.get("country", "")`). -/
structure MBArtist where
  id : List Char
  score : Int
  country : List Char
deriving DecidableEq

/-- The parsed body of the MusicBrainz artist-search response
(`resp.json()`), queried with `limit = 1`. -/
structure MBSearchData where
  artists : List MBArtist
deriving DecidableEq

/-- The candidate-selection step of `get_all_social_links`
(`social_links_pipeline.py` lines 38-40): `None` unless the first
candidate exists and has score at least 90, else its MusicBrainz id. -/
def mbSearchSelect (data : MBSearchData) : Option (List Char) :=
  match data.artists with
  | [] => none
  | a :: _ => if a.score < 90 then none else some a.id

end SocialLinksPipeline

/-- C2 counterexample: with the scripted responses
`[429 (Retry-After 3), 429 (Retry-After 3), 200 [Drake]]`,
`dj_chunk_runner.SpotifyClient.search` makes a third attempt after the
second 429 (sleeping 3 seconds each time) and returns that attempt's
artist — the claim's "retries exactly once, then the result is none" is
false on this script. -/
theorem C2_unbounded_retry_counterexample :
    (Spotify.search "Drake".toList
      [Spotify.Resp.rate (some 3), Spotify.Resp.rate (some 3),
       Spotify.Resp.ok [⟨some "3TVXtAsR1Inumwj472S9r4".toList, "Drake".toList⟩]]).attempts = 3
  ∧ (Spotify.search "Drake".toList
      [Spotify.Resp.rate (some 3), Spotify.Resp.rate (some 3),
       Spotify.Resp.ok [⟨some "3TVXtAsR1Inumwj472S9r4".toList, "Drake".toList⟩]]).sleeps = [3, 3]
  ∧ (Spotify.search "Drake".toList
      [Spotify.Resp.rate (some 3), Spotify.Resp.rate (some 3),
       Spotify.Resp.ok [⟨some "3TVXtAsR1Inumwj472S9r4".toList, "Drake".toList⟩]]).result
      = some ⟨some "3TVXtAsR1Inumwj472S9r4".toList, "Drake".toList⟩ := by
  refine ⟨by decide, by decide, by decide⟩

/-- C2 (amended): a 429 response makes the client sleep the
`Retry-After` duration (default 3) and retry the same call; this repeats
without bound while 429s keep coming — after any run of consecutive 429s
the outcome is that of the rest of the script, with one extra attempt
and one extra sleep per 429.  A 429 never directly produces a `none`
result. -/
theorem C2_rate_limit_retry_unbounded (name : List Char)
    (pre rest : List Spotify.Resp)
    (hpre : ∀ r ∈ pre, ∃ ra, r = Spotify.Resp.rate ra) :
    Spotify.search name (pre ++ rest)
      = ⟨(Spotify.search name rest).result,
         pre.map Spotify.retryDelay ++ (Spotify.search name rest).sleeps,
         pre.length + (Spotify.search name rest).attempts⟩ := by
  induction pre with
  | nil => simp
  | cons r pre ih =>
    obtain ⟨ra, rfl⟩ := hpre r (List.mem_cons_self r pre)
    have ih' := ih (fun x hx => hpre x (List.mem_cons_of_mem _ hx))
    have hstep : Spotify.search name (Spotify.Resp.rate ra :: (pre ++ rest))
        = ⟨(Spotify.search name (pre ++ rest)).result,
           ra.getD 3 :: (Spotify.search name (pre ++ rest)).sleeps,
           (Spotify.search name (pre ++ rest)).attempts + 1⟩ := rfl
    rw [List.cons_append, hstep, ih']
    simp only [Spotify.SearchOutcome.mk.injEq, List.map_cons,
      Spotify.retryDelay, List.length_cons, List.cons_append,
      and_true, true_and, eq_self_iff_true]
    omega

/-- Witness for C2 (amended) on a concrete script. -/
theorem C2_rate_limit_retry_unbounded_witness :
    Spotify.search "Drake".toList
      ([Spotify.Resp.rate (some 7)] ++ [Spotify.Resp.ok []])
      = ⟨none, [7], 2⟩ := by
  rw [C2_rate_limit_retry_unbounded "Drake".toList
    [Spotify.Resp.rate (some 7)] [Spotify.Resp.ok []]
    (by intro r hr; simp at hr; exact ⟨some 7, hr⟩)]
  decide

/-- C5 counterexample: the MusicBrainz name search of
`social_links_pipeline.get_all_social_links` returns `None` on a
NON-empty candidate list whose first candidate scores below 90 —
refuting "it returns none only when the candidate list is empty". -/
theorem C5_score_threshold_counterexample :
    SocialLinksPipeline.mbSearchSelect
      ⟨[⟨"mbid-123".toList, 80, "US".toList⟩]⟩ = none
  ∧ ([(⟨"mbid-123".toList, 80, "US".toList⟩ :
        SocialLinksPipeline.MBArtist)] ≠ []) := by
  refine ⟨by decide, by simp⟩

/-- C5 (amended): the Spotify clients follow the claimed policy — `None`
exactly on an empty candidate list, else the first exact
case-insensitive name match when one exists, else the first candidate.
The MusicBrainz search of `social_links_pipeline.py` (queried with
`limit=1`) instead takes the first candidate only when its match score
is at least 90 and returns `None` otherwise, even with a nonempty
candidate list. -/
theorem C5_candidate_selection :
    (∀ name : List Char, Spotify.selectArtist [] name = none)
  ∧ (∀ (name : List Char) (items : List Spotify.Artist)
        (a : Spotify.Artist),
      Spotify.selectArtist items name = some a → items ≠ [])
  ∧ (∀ (name : List Char) (first : Spotify.Artist)
        (rest : List Spotify.Artist),
      (∃ x ∈ first :: rest,
        x.name.map Char.toLower = name.map Char.toLower) →
      ∃ b, Spotify.selectArtist (first :: rest) name = some b ∧
        b.name.map Char.toLower = name.map Char.toLower)
  ∧ (∀ (name : List Char) (first : Spotify.Artist)
        (rest : List Spotify.Artist),
      (∀ x ∈ first :: rest,
        x.name.map Char.toLower ≠ name.map Char.toLower) →
      Spotify.selectArtist (first :: rest) name = some first)
  ∧ (∀ (d : SocialLinksPipeline.MBSearchData)
        (a : SocialLinksPipeline.MBArtist)
        (tl : List SocialLinksPipeline.MBArtist),
      d.artists = a :: tl → 90 ≤ a.score →
      SocialLinksPipeline.mbSearchSelect d = some a.id)
  ∧ (∀ (d : SocialLinksPipeline.MBSearchData)
        (a : SocialLinksPipeline.MBArtist)
        (tl : List SocialLinksPipeline.MBArtist),
      d.artists = a :: tl → a.score < 90 →
      SocialLinksPipeline.mbSearchSelect d = none) := by
  refine ⟨?_, ?_, ?_, ?_, ?_, ?_⟩
  · intro name
    rfl
  · intro name items a hsel hnil
    subst hnil
    exact absurd hsel (by simp [Spotify.selectArtist])
  · intro name first rest hex
    have hsome : ((first :: rest).find?
        (fun i => i.name.map Char.toLower = name.map Char.toLower)).isSome := by
      rw [List.find?_isSome]
      obtain ⟨x, hx, hxe⟩ := hex
      exact ⟨x, hx, by simpa using hxe⟩
    cases hf : (first :: rest).find?
        (fun i => i.name.map Char.toLower = name.map Char.toLower) with
    | none => rw [hf] at hsome; simp at hsome
    | some b =>
      refine ⟨b, ?_, ?_⟩
      · simp only [Spotify.selectArtist, hf]
      · have := List.find?_some hf
        simpa using this
  · intro name first rest hall
    have hnone : (first :: rest).find?
        (fun i => i.name.map Char.toLower = name.map Char.toLower) = none := by
      rw [List.find?_eq_none]
      intro x hx
      simpa using hall x hx
    simp only [Spotify.selectArtist, hnone]
  · intro d a tl hd hsc
    unfold SocialLinksPipeline.mbSearchSelect
    rw [hd]
    simp only
    rw [if_neg (by omega)]
  · intro d a tl hd hsc
    unfold SocialLinksPipeline.mbSearchSelect
    rw [hd]
    simp only
    rw [if_pos hsc]

/-- Witness for C5 (amended) at concrete inputs. -/
theorem C5_candidate_selection_witness :
    Spotify.selectArtist [] "Drake".toList = none
  ∧ (∃ b, Spotify.selectArtist
      [⟨some "id1".toList, "DRAKE".toList⟩] "Drake".toList = some b ∧
      b.name.map Char.toLower = "Drake".toList.map Char.toLower)
  ∧ Spotify.selectArtist
      [⟨some "id2".toList, "Drizzy".toList⟩] "Drake".toList
      = some ⟨some "id2".toList, "Drizzy".toList⟩
  ∧ SocialLinksPipeline.mbSearchSelect
      ⟨[⟨"mb1".toList, 100, "CA".toList⟩]⟩ = some "mb1".toList
  ∧ SocialLinksPipeline.mbSearchSelect
      ⟨[⟨"mb2".toList, 89, "CA".toList⟩]⟩ = none := by
  refine ⟨?_, ?_, ?_, ?_, ?_⟩
  · exact C5_candidate_selection.1 "Drake".toList
  · exact C5_candidate_selection.2.2.1 "Drake".toList
      ⟨some "id1".toList, "DRAKE".toList⟩ []
      ⟨⟨some "id1".toList, "DRAKE".toList⟩, by simp, by decide⟩
  · exact C5_candidate_selection.2.2.2.1 "Drake".toList
      ⟨some "id2".toList, "Drizzy".toList⟩ []
      (by intro x hx; simp at hx; subst hx; decide)
  · exact C5_candidate_selection.2.2.2.2.1
      ⟨[⟨"mb1".toList, 100, "CA".toList⟩]⟩
      ⟨"mb1".toList, 100, "CA".toList⟩ [] rfl (by norm_num)
  · exact C5_candidate_selection.2.2.2.2.2
      ⟨[⟨"mb2".toList, 89, "CA".toList⟩]⟩
      ⟨"mb2".toList, 89, "CA".toList⟩ [] rfl (by norm_num)

/-- The 17 output columns (`COLUMNS` in `dj_chunk_runner.py` and
`enrich_dj_parallel.py`, `expected_columns` in `enrich_remaining.py`). -/
inductive Col
  | artist_name
  | soundcharts_uuid
  | spotify_id
  | instagram_url
  | instagram_handle
  | tiktok_url
  | tiktok_handle
  | youtube_url
  | youtube_channel_id
  | soundcloud_url
  | soundcloud_handle
  | twitter_url
  | twitter_handle
  | facebook_url
  | website_url
  | lookup_status
  | error_message
deriving DecidableEq

/-- One spreadsheet row: each column holds a string or is missing
(`NaN`/`None`, both modelled as `none`). -/
def Row : Type := Col → Option (List Char)

/-- Assignment `row[c] = v`. -/
def setCol (r : Row) (c : Col) (v : Option (List Char)) : Row :=
  fun c' => if c' = c then v else r c'

/-- `{c: None for c in COLUMNS}`. -/
def emptyRow : Row := fun _ => none

namespace EnrichDjParallel

/-- A SoundCloud search hit (`search_soundcloud` result):
`{"url": ..., "handle": ...}`. -/
structure SCResult where
  url : List Char
  handle : List Char
deriving DecidableEq

/-- `enrich_artist` from `enrich_dj_parallel.py`, with the two provider
calls replaced by their results (`spotify.search_artist(artist_name)`
and `search_soundcloud(artist_name)`): start from an all-`None` row, set
name and uuid, copy `result.get("id")` when Spotify matched, copy the
SoundCloud url and handle when SoundCloud matched, and set
`lookup_status` to the comma-joined source list or `"no_results"`. -/
def enrich_artist (spotifyRes : Option Spotify.Artist)
    (scRes : Option SCResult) (artist_name : List Char)
    (sc_uuid : Option (List Char)) : Row :=
  let row := setCol (setCol emptyRow Col.artist_name (some artist_name))
    Col.soundcharts_uuid sc_uuid
  let step1 : Row × List (List Char) :=
    match spotifyRes with
    | some res => (setCol row Col.spotify_id res.id, ["spotify".toList])
    | none => (row, [])
  let step2 : Row × List (List Char) :=
    match scRes with
    | some sc =>
      (setCol (setCol step1.1 Col.soundcloud_url (some sc.url))
        Col.soundcloud_handle (some sc.handle),
       step1.2 ++ ["soundcloud".toList])
    | none => step1
  setCol step2.1 Col.lookup_status
    (some (if step2.2 = [] then "no_results".toList
           else (step2.2.intersperse ",".toList).flatten))

end EnrichDjParallel

/-- C8: on the one-record input `["Drake"]` where Spotify returns an
artist with id `3TVXtAsR1Inumwj472S9r4` and SoundCloud returns nothing,
`enrich_artist` (`enrich_dj_parallel.py`) produces a row whose
`spotify_id` is that id, whose `lookup_status` is `"spotify"`, and whose
other platform fields are all empty; and whenever no provider
contributes data, `lookup_status` is `"no_results"`. -/
theorem C8_single_record_scenario :
    (∀ c : Col,
      EnrichDjParallel.enrich_artist
        (some ⟨some "3TVXtAsR1Inumwj472S9r4".toList, "Drake".toList⟩)
        none "Drake".toList none c
      = (if c = Col.artist_name then some "Drake".toList
         else if c = Col.spotify_id then
           some "3TVXtAsR1Inumwj472S9r4".toList
         else if c = Col.lookup_status then some "spotify".toList
         else none))
  ∧ ∀ (n : List Char) (u : Option (List Char)),
      EnrichDjParallel.enrich_artist none none n u Col.lookup_status
        = some "no_results".toList := by
  refine ⟨?_, ?_⟩
  · intro c
    cases c <;> decide
  · intro n u
    rfl

namespace EnrichRemaining

/-- A YouTube channel hit (`YouTubeClient.search_channel` result). -/
structure YTData where
  url : List Char
  channel_id : List Char
deriving DecidableEq

/-- A SoundCloud search hit (`search_soundcloud` result). -/
structure SCData where
  url : List Char
  handle : List Char
deriving DecidableEq

/-- The three providers of `enrich_remaining.py` as response functions
of the artist name; `youtube = none` models a missing
`YOUTUBE_API_KEY` (the client is not constructed). -/
structure Providers where
  spotify : List Char → Option Spotify.Artist
  youtube : Option (List Char → Option YTData)
  soundcloud : List Char → Option SCData

/-- `pd.isna(row.get("spotify_id")) or row.get("spotify_id") in
(None, "", "nan")`. -/
def missingSpotifyId (v : Option (List Char)) : Bool :=
  v.isNone || v = some [] || v = some "nan".toList

/-- `enrich_row` from `enrich_remaining.py`, with each provider call
replaced by its response: fill `spotify_id` when it is missing-like,
fill `youtube_url`/`youtube_channel_id` when the YouTube client exists
and `youtube_url` is missing, fill `soundcloud_url` (and
`soundcloud_handle` when missing) when `soundcloud_url` is missing;
collect the contributing source tags in order. -/
def enrich_row (p : Providers) (row : Row) : Row × List (List Char) :=
  let artist_name := (row Col.artist_name).getD []
  let s1 : Row × List (List Char) :=
    match p.spotify artist_name with
    | some a =>
      if missingSpotifyId (row Col.spotify_id) then
        (setCol row Col.spotify_id a.id, ["spotify".toList])
      else (row, [])
    | none => (row, [])
  let s2 : Row × List (List Char) :=
    match p.youtube with
    | some yt =>
      if (s1.1 Col.youtube_url).isNone then
        match yt artist_name with
        | some y =>
          (setCol (setCol s1.1 Col.youtube_url (some y.url))
            Col.youtube_channel_id (some y.channel_id),
           s1.2 ++ ["youtube_api".toList])
        | none => s1
      else s1
    | none => s1
  if (s2.1 Col.soundcloud_url).isNone then
    match p.soundcloud artist_name with
    | some sc =>
      let r1 := setCol s2.1 Col.soundcloud_url (some sc.url)
      let r2 :=
        if (r1 Col.soundcloud_handle).isNone then
          setCol r1 Col.soundcloud_handle (some sc.handle)
        else r1
      (r2, s2.2 ++ ["soundcloud_search".toList])
    | none => s2
  else s2

/-- The write-back loop of `run_pipeline` (`enrich_remaining.py` lines
421-425): for every expected column, copy the updated value only when
the stored value is `NaN` and the updated one is not. -/
def writeBack (orig updated : Row) : Row :=
  fun c =>
    if (orig c).isNone && (updated c).isSome then updated c else orig c

/-- The `lookup_status` update of `run_pipeline` (lines 427-435): when
any source contributed, join the tags with `","`; a stored status of
exactly `"success"` becomes `"success+<tags>"`, anything else is
replaced by the tags. -/
def applyStatus (r : Row) (sources : List (List Char)) : Row :=
  if sources = [] then r
  else
    let source_tag := (sources.intersperse ",".toList).flatten
    if r Col.lookup_status = some "success".toList then
      setCol r Col.lookup_status (some ("success+".toList ++ source_tag))
    else
      setCol r Col.lookup_status (some source_tag)

/-- One iteration of the `run_pipeline` loop for a single row:
`enrich_row` on a copy, guarded write-back, then the `lookup_status`
update. -/
def processRow (p : Providers) (row : Row) : Row :=
  let es := enrich_row p row
  applyStatus (writeBack row es.1) es.2

theorem applyStatus_ne_lookup (r : Row) (s : List (List Char)) (c : Col)
    (hc : c ≠ Col.lookup_status) : applyStatus r s c = r c := by
  unfold applyStatus
  split
  · rfl
  · split <;> simp [setCol, hc]

theorem writeBack_of_filled (orig updated : Row) (c : Col)
    (hv : orig c ≠ none) : writeBack orig updated c = orig c := by
  unfold writeBack
  have h1 : (orig c).isNone = false := by
    cases horig : orig c with
    | none => exact absurd horig hv
    | some v => rfl
  simp [h1]

end EnrichRemaining

/-- C1 (amended): in `run_pipeline` (`enrich_remaining.py`), for every
column other than `lookup_status`, a value that is present before a row
is processed is unchanged by processing — in the same run and hence in
any subsequent run over the same output (second conjunct: a value
present after one pass survives a second pass).  `lookup_status` is
excluded: it is rewritten whenever any source tag is collected. -/
theorem C1_never_overwrite_amended (p : EnrichRemaining.Providers)
    (row : Row) (c : Col) (hc : c ≠ Col.lookup_status) :
    (row c ≠ none → EnrichRemaining.processRow p row c = row c)
  ∧ (EnrichRemaining.processRow p row c ≠ none →
      EnrichRemaining.processRow p (EnrichRemaining.processRow p row) c
        = EnrichRemaining.processRow p row c) := by
  have key : ∀ r : Row, r c ≠ none →
      EnrichRemaining.processRow p r c = r c := by
    intro r hv
    unfold EnrichRemaining.processRow
    rw [EnrichRemaining.applyStatus_ne_lookup _ _ _ hc]
    exact EnrichRemaining.writeBack_of_filled r _ c hv
  exact ⟨key row, key (EnrichRemaining.processRow p row)⟩

/-- Witness for C1 (amended): a stored `spotify_id` survives processing
even when Spotify returns a different id. -/
theorem C1_never_overwrite_amended_witness :
    EnrichRemaining.processRow
      ⟨fun _ => some ⟨some "newid".toList, "Drake".toList⟩, none,
       fun _ => none⟩
      (fun c => if c = Col.spotify_id then some "oldid".toList else none)
      Col.spotify_id = some "oldid".toList := by
  have h := (C1_never_overwrite_amended
    ⟨fun _ => some ⟨some "newid".toList, "Drake".toList⟩, none,
     fun _ => none⟩
    (fun c => if c = Col.spotify_id then some "oldid".toList else none)
    Col.spotify_id (by decide)).1 (by simp)
  rw [h]
  simp

/-- C1 counterexample: with a Spotify response whose artist object has
no `id`, the source tag `"spotify"` is collected on every run while
`spotify_id` stays missing, so a second run over the output of the
first rewrites a non-empty `lookup_status` from `"success+spotify"` to
`"spotify"` — refuting "running the pipeline twice changes no field
that was already non-empty after the first run". -/
theorem C1_second_run_changes_lookup_status :
    (EnrichRemaining.processRow
      ⟨fun _ => some ⟨none, "X".toList⟩, none, fun _ => none⟩
      (fun c => if c = Col.lookup_status then some "success".toList
                else if c = Col.artist_name then some "Drake".toList
                else none)
      Col.lookup_status = some "success+spotify".toList)
  ∧ (EnrichRemaining.processRow
      ⟨fun _ => some ⟨none, "X".toList⟩, none, fun _ => none⟩
      (EnrichRemaining.processRow
        ⟨fun _ => some ⟨none, "X".toList⟩, none, fun _ => none⟩
        (fun c => if c = Col.lookup_status then some "success".toList
                  else if c = Col.artist_name then some "Drake".toList
                  else none))
      Col.lookup_status = some "spotify".toList)
  ∧ some "spotify".toList ≠ some "success+spotify".toList := by
  refine ⟨by decide, by decide, by decide⟩

namespace SocialLinksPipeline

open PyStr

/-- One URL relation from the MusicBrainz lookup response:
`rel.get("type", "")` and `rel.get("url", {}).get("resource", "")`
(`rtype` stands for the Python key `"type"`). -/
structure MBRel where
  rtype : List Char
  resource : List Char
deriving DecidableEq

/-- The parsed body of the MusicBrainz artist-lookup response. -/
structure MBLookupData where
  relations : List MBRel
deriving DecidableEq

/-- Python substring containment `pat in l`. -/
def containsSub (pat : List Char) : List Char → Bool
  | [] => pat.isEmpty
  | c :: cs => pat.isPrefixOf (c :: cs) || containsSub pat cs

/-- `url.rstrip("/").split("/")[-1]`. -/
def lastSegment (url : List Char) : List Char :=
  (splitOn '/' (rstripSlash url)).getLastD []

/-- The keys the `urls` dict of `get_all_social_links` can hold. -/
inductive UKey
  | artist_country
  | instagram_url
  | instagram_handle
  | tiktok_url
  | tiktok_handle
  | youtube_url
  | youtube_channel_id
  | soundcloud_url
  | soundcloud_handle
  | twitter_url
  | twitter_handle
  | facebook_url
  | website_url
deriving DecidableEq

/-- The `urls` dict: key present (`some`) or absent (`none`). -/
def Urls : Type := UKey → Option (List Char)

/-- `urls[k] = v`. -/
def setU (u : Urls) (k : UKey) (v : List Char) : Urls :=
  fun k' => if k' = k then some v else u k'

/-- One iteration of the relations loop of `get_all_social_links`
(`social_links_pipeline.py` lines 56-76): the `elif` chain over the URL
substring tests, each guarded by the key not being present yet. -/
def relStep (u : Urls) (rel : MBRel) : Urls :=
  let url := rel.resource
  if containsSub "instagram.com".toList url
      && (u UKey.instagram_url).isNone then
    setU (setU u UKey.instagram_url url)
      UKey.instagram_handle (lastSegment url)
  else if containsSub "tiktok.com".toList url
      && (u UKey.tiktok_url).isNone then
    setU (setU u UKey.tiktok_url url)
      UKey.tiktok_handle ((lastSegment url).filter (fun c => !(c = '@')))
  else if containsSub "youtube.com".toList url
      && (u UKey.youtube_url).isNone then
    setU (setU u UKey.youtube_url url)
      UKey.youtube_channel_id (lastSegment url)
  else if containsSub "soundcloud.com".toList url
      && (u UKey.soundcloud_url).isNone then
    setU (setU u UKey.soundcloud_url url)
      UKey.soundcloud_handle (lastSegment url)
  else if containsSub "twitter.com".toList url
      && (u UKey.twitter_url).isNone then
    setU (setU u UKey.twitter_url url)
      UKey.twitter_handle (lastSegment url)
  else if containsSub "facebook.com".toList url
      && (u UKey.facebook_url).isNone then
    setU u UKey.facebook_url url
  else if rel.rtype = "official homepage".toList
      && (u UKey.website_url).isNone then
    setU u UKey.website_url url
  else u

/-- The part of `get_all_social_links` after `artist_id` is set: second
request, then `artist_country = data["artists"][0].get("country", "")`
— reading the local variable `data`, which on the cache-hit path was
never assigned (`dataVar = none`), raising `UnboundLocalError`
(modelled as `Except.error ()`); then the relations fold.  The returned
dict always contains `artist_country`, so `urls if urls else None` is
always the dict itself. -/
def afterSearch (lookupResp : List Char → MBLookupData)
    (artist_id : List Char) (dataVar : Option MBSearchData) :
    Except Unit (Option Urls) :=
  let resp2 := lookupResp artist_id
  match dataVar with
  | none => Except.error ()
  | some d =>
    match d.artists with
    | [] => Except.error ()
    | a :: _ =>
      let urls0 := setU (fun _ => none) UKey.artist_country a.country
      Except.ok (some (resp2.relations.foldl relStep urls0))

/-- The `try` body of `get_all_social_links`
(`social_links_pipeline.py`): on a cache hit take the cached id and
leave the local `data` unassigned; on a miss run the name search, give
up (`return None`, `Except.ok none`) on no candidate or score below 90,
else use the first candidate's id and remember the response in `data`.
The cache write on a miss only affects later calls and is not part of
the returned value. -/
def getAllSocialLinksBody (cache : List (List Char × List Char))
    (searchResp : List Char → MBSearchData)
    (lookupResp : List Char → MBLookupData)
    (artist_name : List Char) : Except Unit (Option Urls) :=
  match cache.lookup artist_name with
  | some aid => afterSearch lookupResp aid none
  | none =>
    let d := searchResp artist_name
    match d.artists with
    | [] => Except.ok none
    | a :: _ =>
      if a.score < 90 then Except.ok none
      else afterSearch lookupResp a.id (some d)

/-- `get_all_social_links`: the `try` body with the bare `except:`
mapping any raised exception to `None`. -/
def get_all_social_links (cache : List (List Char × List Char))
    (searchResp : List Char → MBSearchData)
    (lookupResp : List Char → MBLookupData)
    (artist_name : List Char) : Option Urls :=
  match getAllSocialLinksBody cache searchResp lookupResp artist_name with
  | Except.ok v => v
  | Except.error _ => none

end SocialLinksPipeline

/-- C10: for every artist name present in the loaded MusicBrainz id
cache, `get_all_social_links` returns `None` no matter what the HTTP
responses are: the cache-hit branch never assigns the local `data`,
reading it to build `artist_country` raises `UnboundLocalError`, and
the bare `except:` turns that into `return None`. -/
theorem C10_cache_hit_returns_none
    (cache : List (List Char × List Char))
    (searchResp : List Char → SocialLinksPipeline.MBSearchData)
    (lookupResp : List Char → SocialLinksPipeline.MBLookupData)
    (name mbid : List Char)
    (hc : cache.lookup name = some mbid) :
    SocialLinksPipeline.get_all_social_links cache searchResp lookupResp
      name = none := by
  unfold SocialLinksPipeline.get_all_social_links
    SocialLinksPipeline.getAllSocialLinksBody
  rw [hc]
  rfl

/-- Witness for C10: a concrete cache containing `"Drake"`, with
providers that would have full data to give. -/
theorem C10_cache_hit_returns_none_witness :
    SocialLinksPipeline.get_all_social_links
      [("Drake".toList, "mbid-1".toList)]
      (fun _ => ⟨[⟨"mbid-1".toList, 100, "CA".toList⟩]⟩)
      (fun _ => ⟨[⟨"".toList,
        "https://www.instagram.com/drake".toList⟩]⟩)
      "Drake".toList = none :=
  C10_cache_hit_returns_none _ _ _ "Drake".toList "mbid-1".toList
    (by decide)

namespace SocialLinksPipeline

/-- `pandas.Series.unique()` on the artist-name column: keep the first
occurrence of each name, in order (written with a seen-accumulator so
that it is structurally recursive). -/
def pandasUniqueAux (seen : List (List Char)) :
    List (List Char) → List (List Char)
  | [] => []
  | a :: rest =>
    if a ∈ seen then pandasUniqueAux seen rest
    else a :: pandasUniqueAux (a :: seen) rest

/-- `df_artists[artist_col].dropna().unique().tolist()` (the `dropna`
is left to the caller: the input is the list of present names). -/
def pandasUnique (l : List (List Char)) : List (List Char) :=
  pandasUniqueAux [] l

theorem mem_pandasUniqueAux (x : List Char) (seen l : List (List Char)) :
    x ∈ pandasUniqueAux seen l ↔ x ∈ l ∧ x ∉ seen := by
  induction l generalizing seen with
  | nil => simp [pandasUniqueAux]
  | cons a rest ih =>
    by_cases ha : a ∈ seen
    · simp only [pandasUniqueAux, if_pos ha, ih, List.mem_cons]
      constructor
      · rintro ⟨hx, hs⟩
        exact ⟨Or.inr hx, hs⟩
      · rintro ⟨hx | hx, hs⟩
        · exact absurd (hx ▸ ha) hs
        · exact ⟨hx, hs⟩
    · simp only [pandasUniqueAux, if_neg ha, List.mem_cons, ih]
      constructor
      · rintro (rfl | ⟨hx, hs⟩)
        · exact ⟨Or.inl rfl, ha⟩
        · simp only [List.mem_cons, not_or] at hs
          exact ⟨Or.inr hx, hs.2⟩
      · rintro ⟨hx | hx, hs⟩
        · exact Or.inl hx
        · by_cases hxa : x = a
          · exact Or.inl hxa
          · refine Or.inr ⟨hx, ?_⟩
            simp only [List.mem_cons, not_or]
            exact ⟨hxa, hs⟩

theorem pandasUniqueAux_nodup (seen l : List (List Char)) :
    (pandasUniqueAux seen l).Nodup := by
  induction l generalizing seen with
  | nil => simp [pandasUniqueAux]
  | cons a rest ih =>
    by_cases ha : a ∈ seen
    · simpa [pandasUniqueAux, ha] using ih seen
    · simp only [pandasUniqueAux, if_neg ha]
      refine List.nodup_cons.mpr ⟨?_, ih (a :: seen)⟩
      intro hmem
      exact ((mem_pandasUniqueAux a (a :: seen) rest).mp hmem).2
        (List.mem_cons_self a seen)

theorem pandasUnique_nodup (l : List (List Char)) :
    (pandasUnique l).Nodup := pandasUniqueAux_nodup [] l

/-- A sublist `S` of a duplicate-free list `U`, followed by the
elements of `U` outside `S`, is a permutation of `U`. -/
theorem sublist_append_filter_perm (S U : List (List Char))
    (hs : List.Sublist S U) (hu : U.Nodup) :
    (S ++ U.filter (fun a => decide (a ∉ S))).Perm U := by
  induction hs with
  | slnil => simp
  | @cons S' U' u hs ih =>
    have hu' : U'.Nodup := (List.nodup_cons.mp hu).2
    have hns : u ∉ U' := (List.nodup_cons.mp hu).1
    have hun : u ∉ S' := fun hmem => hns (hs.subset hmem)
    have hfil : (u :: U').filter (fun a => decide (a ∉ S'))
        = u :: U'.filter (fun a => decide (a ∉ S')) := by
      simp [List.filter_cons, hun]
    rw [hfil]
    exact List.Perm.trans List.perm_middle ((ih hu').cons u)
  | @cons₂ S' U' u hs ih =>
    have hu' : U'.Nodup := (List.nodup_cons.mp hu).2
    have hns : u ∉ U' := (List.nodup_cons.mp hu).1
    have hfil : (u :: U').filter (fun a => decide (a ∉ u :: S'))
        = U'.filter (fun a => decide (a ∉ u :: S')) := by
      simp [List.filter_cons]
    have hfil2 : U'.filter (fun a => decide (a ∉ u :: S'))
        = U'.filter (fun a => decide (a ∉ S')) := by
      apply List.filter_congr
      intro x hx
      have hxu : x ≠ u := fun hxe => hns (hxe ▸ hx)
      simp [hxu]
    rw [hfil, hfil2, List.cons_append]
    exact (ih hu').cons u

/-- One output row of the pipeline loop: `{"Artist": artist}` updated
with the links dict when `get_all_social_links` returned one.  The CSV
checkpoint round-trip is modelled as the identity on rows. -/
structure PRow where
  artist : List Char
  links : Option Urls

/-- `process_artist` from `social_links_pipeline.py`, with
`get_all_social_links` abstracted to a fixed response function of the
artist name.  This abstraction is exact within one process run (names
are deduplicated, so the cache mutation inside `get_all_social_links`
never affects another artist of the same run), but NOT across an
interruption: the persisted `musicbrainz_id_cache.json` changes a
reprocessed artist's result (see the stateful model below). -/
def process_artist (gasl : List Char → Option Urls) (a : List Char) :
    PRow :=
  ⟨a, gasl a⟩

/-- An uninterrupted run over one input file: every distinct artist name
is processed. -/
def runFull (gasl : List Char → Option Urls)
    (names : List (List Char)) : List PRow :=
  (pandasUnique names).map (process_artist gasl)

/-- A run resumed from a loaded checkpoint (`social_links_pipeline.py`
lines 99-113): `processed` is the set of artist names in the checkpoint,
the checkpoint rows seed `results`, and only names outside `processed`
are processed. -/
def runResumed (gasl : List Char → Option Urls)
    (checkpoint : List PRow) (names : List (List Char)) : List PRow :=
  checkpoint ++
    ((pandasUnique names).filter
      (fun a => decide (a ∉ checkpoint.map PRow.artist))).map
      (process_artist gasl)

end SocialLinksPipeline

/-- C3 (amended): a run resumed from a checkpoint holding the rows of
some subset of the artists never reprocesses a checkpointed artist
(first conjunct); and PROVIDED each artist's `get_all_social_links`
result is the same in the resumed run as in the uninterrupted one (one
fixed response function `gasl` on both sides), the resumed final result
set is a permutation of the uninterrupted run's (second conjunct).  The
checkpoint may list its rows in any order (parallel completion order).
The proviso is not vacuous and not guaranteed by the program: the
persisted MusicBrainz id cache can change a reprocessed artist's result
across the interruption — see `C3_cache_interruption_counterexample`. -/
theorem C3_checkpoint_resume_equivalence
    (gasl : List Char → Option SocialLinksPipeline.Urls)
    (names S : List (List Char))
    (checkpoint : List SocialLinksPipeline.PRow)
    (hS : List.Sublist S (SocialLinksPipeline.pandasUnique names))
    (hcp : checkpoint.Perm
      (S.map (SocialLinksPipeline.process_artist gasl))) :
    (∀ r ∈ checkpoint, r.artist ∉
      ((SocialLinksPipeline.pandasUnique names).filter
        (fun a => decide (a ∉ checkpoint.map
          SocialLinksPipeline.PRow.artist))))
  ∧ (SocialLinksPipeline.runResumed gasl checkpoint names).Perm
      (SocialLinksPipeline.runFull gasl names) := by
  constructor
  · intro r hr hmem
    have h1 := List.of_mem_filter hmem
    exact (of_decide_eq_true h1)
      (List.mem_map_of_mem SocialLinksPipeline.PRow.artist hr)
  · have hproc : (checkpoint.map SocialLinksPipeline.PRow.artist).Perm S := by
      have h2 : (S.map (SocialLinksPipeline.process_artist gasl)).map
          SocialLinksPipeline.PRow.artist = S := by
        rw [List.map_map]
        have hcmp : SocialLinksPipeline.PRow.artist ∘
            SocialLinksPipeline.process_artist gasl = id := by
          funext x
          rfl
        rw [hcmp, List.map_id]
      have h4 := hcp.map SocialLinksPipeline.PRow.artist
      rw [h2] at h4
      exact h4
    have hfeq : (SocialLinksPipeline.pandasUnique names).filter
          (fun a => decide (a ∉ checkpoint.map
            SocialLinksPipeline.PRow.artist))
        = (SocialLinksPipeline.pandasUnique names).filter
          (fun a => decide (a ∉ S)) := by
      apply List.filter_congr
      intro x _
      have h3 : x ∈ checkpoint.map SocialLinksPipeline.PRow.artist
          ↔ x ∈ S := hproc.mem_iff
      simp [h3]
    unfold SocialLinksPipeline.runResumed SocialLinksPipeline.runFull
    rw [hfeq]
    refine List.Perm.trans (hcp.append_right _) ?_
    rw [← List.map_append]
    exact (SocialLinksPipeline.sublist_append_filter_perm S _ hS
      (SocialLinksPipeline.pandasUnique_nodup names)).map _

/-- Witness for C3: two artists, a checkpoint holding the first. -/
theorem C3_checkpoint_resume_equivalence_witness :
    (SocialLinksPipeline.runResumed (fun _ => none)
      [⟨"a".toList, none⟩] ["a".toList, "b".toList]).Perm
    (SocialLinksPipeline.runFull (fun _ => none)
      ["a".toList, "b".toList]) := by
  refine (C3_checkpoint_resume_equivalence (fun _ => none)
    ["a".toList, "b".toList] ["a".toList] [⟨"a".toList, none⟩]
    ?_ ?_).2
  · exact List.Sublist.cons₂ _ (List.nil_sublist _)
  · exact List.Perm.refl _

namespace SocialLinksPipeline

/-- The on-disk state the module-level loop of
`social_links_pipeline.py` leaves behind for one input file. -/
structure FileState where
  checkpointCsv : Option (List PRow)
  socialSheet : List PRow

/-- The end of one file's run (`social_links_pipeline.py` lines
99-137): seed `results` from the loaded checkpoint (or empty), process
the remaining artists, then write `df_final` to the checkpoint CSV
(line 134) and to the `Social Links` sheet (lines 136-137).  No
statement deletes the checkpoint file. -/
def runFileFinal (gasl : List Char → Option Urls)
    (names : List (List Char)) (checkpoint0 : Option (List PRow)) :
    FileState :=
  let results := runResumed gasl (checkpoint0.getD []) names
  ⟨some results, results⟩

end SocialLinksPipeline

/-- C4 counterexample: a completed run over the one-artist input
`["a"]` with no prior checkpoint leaves the checkpoint CSV present on
disk (holding the final result set) — it is not deleted, refuting "the
checkpoint file is deleted on normal completion". -/
theorem C4_checkpoint_not_deleted_counterexample :
    (SocialLinksPipeline.runFileFinal (fun _ => none)
      ["a".toList] none).checkpointCsv
      = some [⟨"a".toList, none⟩]
  ∧ ((SocialLinksPipeline.runFileFinal (fun _ => none)
      ["a".toList] none).checkpointCsv).isSome = true := by
  exact ⟨rfl, rfl⟩

/-- C4 (amended): on normal completion the final result set is written
both to the `Social Links` sheet and to the checkpoint CSV; the
checkpoint file is never deleted — it survives every completed run,
holding exactly the final result set. -/
theorem C4_checkpoint_survives
    (gasl : List Char → Option SocialLinksPipeline.Urls)
    (names : List (List Char))
    (cp0 : Option (List SocialLinksPipeline.PRow)) :
    (SocialLinksPipeline.runFileFinal gasl names cp0).checkpointCsv
      = some ((SocialLinksPipeline.runFileFinal gasl names
          cp0).socialSheet)
  ∧ ((SocialLinksPipeline.runFileFinal gasl names
        cp0).checkpointCsv).isSome = true := by
  exact ⟨rfl, rfl⟩

namespace SocialLinksPipeline

/-- The contents of `musicbrainz_id_cache.json` after the search phase
of one `get_all_social_links` call (`social_links_pipeline.py` lines
28-43): a cache hit writes nothing; a cache miss writes nothing when
the search fails the candidate/score gate, and otherwise stores the
first candidate's id under the artist name and dumps the cache to disk
(lines 41-43) — BEFORE the `time.sleep(1.1)` and the second request,
so a process killed during that sleep has the id on disk while the
artist's row was never produced. -/
def cacheAfterSearchPhase (cache : List (List Char × List Char))
    (searchResp : List Char → MBSearchData)
    (artist_name : List Char) : List (List Char × List Char) :=
  match cache.lookup artist_name with
  | some _ => cache
  | none =>
    let d := searchResp artist_name
    match d.artists with
    | [] => cache
    | a :: _ =>
      if a.score < 90 then cache
      else cache ++ [(artist_name, a.id)]

/-- One `get_all_social_links` call with its cache side effect: the
returned value (computed from the pre-call cache) together with the
cache file contents after the call. -/
def get_all_social_links_run (cache : List (List Char × List Char))
    (searchResp : List Char → MBSearchData)
    (lookupResp : List Char → MBLookupData)
    (artist_name : List Char) :
    Option Urls × List (List Char × List Char) :=
  (get_all_social_links cache searchResp lookupResp artist_name,
   cacheAfterSearchPhase cache searchResp artist_name)

/-- Sequential processing of a list of artists with the cache threaded
through the calls (one worker of the pool; the module-level
`mb_id_cache` is shared by all calls of a run). -/
def runArtists (searchResp : List Char → MBSearchData)
    (lookupResp : List Char → MBLookupData)
    (cache : List (List Char × List Char)) :
    List (List Char) → List PRow × List (List Char × List Char)
  | [] => ([], cache)
  | a :: rest =>
    let r := get_all_social_links_run cache searchResp lookupResp a
    let rec' := runArtists searchResp lookupResp r.2 rest
    (⟨a, r.1⟩ :: rec'.1, rec'.2)

/-- One file's run with the persisted cache made explicit: load the
cache file (`c0`) and the checkpoint (`checkpoint0`, absent means no
rows were ever saved), skip checkpointed artists, process the rest
sequentially.  Returns the final result set and the cache file left on
disk. -/
def runFileStateful (searchResp : List Char → MBSearchData)
    (lookupResp : List Char → MBLookupData)
    (c0 : List (List Char × List Char))
    (checkpoint0 : Option (List PRow))
    (names : List (List Char)) :
    List PRow × List (List Char × List Char) :=
  let cp := checkpoint0.getD []
  let todo := (pandasUnique names).filter
    (fun a => decide (a ∉ cp.map PRow.artist))
  let out := runArtists searchResp lookupResp c0 todo
  (cp ++ out.1, out.2)

end SocialLinksPipeline

/-- C3 counterexample: checkpoint/resume equivalence fails at an
interruption point because of the persisted MusicBrainz id cache.
Input `["b"]`, empty initial cache, MusicBrainz search answering with
id `mb-b` (score 100) and the lookup answering one Instagram relation.
The first run resolves `b`, writes `(b, mb-b)` to the cache file
(conjunct 1), and is killed during the `time.sleep(1.1)` that follows —
before `b`'s row exists, so no checkpoint is ever written.  The resumed
run (loaded cache `[(b, mb-b)]`, no checkpoint) reprocesses `b` as a
cache hit and produces a row with no links (conjunct 2), while the
uninterrupted run over the same input and the same HTTP responses
produces `b`'s row with its Instagram link (conjuncts 3 and 4); the two
final outputs are not permutations of each other (conjunct 5). -/
theorem C3_cache_interruption_counterexample :
    SocialLinksPipeline.cacheAfterSearchPhase []
      (fun _ => ⟨[⟨"mb-b".toList, 100, "CA".toList⟩]⟩) "b".toList
      = [("b".toList, "mb-b".toList)]
  ∧ (SocialLinksPipeline.runFileStateful
      (fun _ => ⟨[⟨"mb-b".toList, 100, "CA".toList⟩]⟩)
      (fun _ => ⟨[⟨[], "https://www.instagram.com/drakeb".toList⟩]⟩)
      [("b".toList, "mb-b".toList)] none ["b".toList]).1.map
      SocialLinksPipeline.PRow.links = [none]
  ∧ (SocialLinksPipeline.runFileStateful
      (fun _ => ⟨[⟨"mb-b".toList, 100, "CA".toList⟩]⟩)
      (fun _ => ⟨[⟨[], "https://www.instagram.com/drakeb".toList⟩]⟩)
      [] none ["b".toList]).1.map
      (fun r => r.links.map
        (fun u => u SocialLinksPipeline.UKey.instagram_url))
      = [some (some "https://www.instagram.com/drakeb".toList)]
  ∧ (SocialLinksPipeline.runFileStateful
      (fun _ => ⟨[⟨"mb-b".toList, 100, "CA".toList⟩]⟩)
      (fun _ => ⟨[⟨[], "https://www.instagram.com/drakeb".toList⟩]⟩)
      [] none ["b".toList]).1.map
      (fun r => r.links.isSome) = [true]
  ∧ ¬ ((SocialLinksPipeline.runFileStateful
      (fun _ => ⟨[⟨"mb-b".toList, 100, "CA".toList⟩]⟩)
      (fun _ => ⟨[⟨[], "https://www.instagram.com/drakeb".toList⟩]⟩)
      [("b".toList, "mb-b".toList)] none ["b".toList]).1.Perm
    (SocialLinksPipeline.runFileStateful
      (fun _ => ⟨[⟨"mb-b".toList, 100, "CA".toList⟩]⟩)
      (fun _ => ⟨[⟨[], "https://www.instagram.com/drakeb".toList⟩]⟩)
      [] none ["b".toList]).1) := by
  refine ⟨by decide, rfl, rfl, rfl, ?_⟩
  intro hp
  have h2 := hp.map (fun r => r.links.isSome)
  rw [show (SocialLinksPipeline.runFileStateful
      (fun _ => ⟨[⟨"mb-b".toList, 100, "CA".toList⟩]⟩)
      (fun _ => ⟨[⟨[], "https://www.instagram.com/drakeb".toList⟩]⟩)
      [("b".toList, "mb-b".toList)] none ["b".toList]).1.map
      (fun r => r.links.isSome) = [false] from rfl] at h2
  rw [show (SocialLinksPipeline.runFileStateful
      (fun _ => ⟨[⟨"mb-b".toList, 100, "CA".toList⟩]⟩)
      (fun _ => ⟨[⟨[], "https://www.instagram.com/drakeb".toList⟩]⟩)
      [] none ["b".toList]).1.map
      (fun r => r.links.isSome) = [true] from rfl] at h2
  exact absurd (List.perm_singleton.mp h2) (by decide)
